import Mathlib

/-!
# A verification model of the temporary-rvalue elimination pass

This file gives a shallow embedding of the optimization pass in
`lib/SILOptimizer/Transforms/TempRValueElimination.cpp` and proves properties of
it.  The embedding follows the source function by function:

* `collectLoads` / `collectLoadsFromProjection` — the use classifier;
* `checkNoSourceModification` — the source-mutation checker;
* `checkTempObjectDestroy` — the destroy-pattern checker;
* `tryOptimizeCopyIntoTemp` and `tryOptimizeStoreIntoTemp` — the two rewrite
  strategies;
* `run` — the driver sweep with its deferred deletion of identity copies.

Modelling conventions:

* Values and addresses are numeric SSA ids (`Nat`); address roots (function
  arguments and `alloc_stack` results) are distinct ids.
* An instruction is a payload `Inst` together with a unique numeric id and the
  id of its basic block (`NInst`).  A function is modelled as one basic block,
  i.e. a `List NInst` in program order; the classifier's
  "same block as the candidate" test is kept and reads the `blk` fields.
* The alias-analysis oracle is an explicit parameter (`AliasOracle`), matching
  its interface `mayWriteToMemory`/`isNoAlias` in the source.
* `apply` and `try_apply` uses are modelled by a single `apply` payload holding
  the argument values with their conventions; the source treats both kinds
  identically.
* Type-dependent operands are not modelled (none of the modelled instruction
  payloads has any).
-/

/-- Ownership qualifier of a `load` (`LoadOwnershipQualifier`). -/
inductive LoadQual where
  | unqualified
  | take
  | copy
  | trivial
deriving DecidableEq

/-- Ownership qualifier of a `store` (`StoreOwnershipQualifier`). -/
inductive StoreQual where
  | unqualified
  | init
  | assign
  | trivial
deriving DecidableEq

/-- Kind of a scoped access (`SILAccessKind`). -/
inductive AccessKind where
  | init
  | read
  | modify
  | deinit
deriving DecidableEq

/-- Access mode of `open_existential_addr` (`OpenedExistentialAccess`). -/
inductive ExistAccess where
  | immutable
  | mutating
deriving DecidableEq

/-- Argument-passing convention of an applied operand (`SILArgumentConvention`). -/
inductive ArgConv where
  | indirectIn
  | indirectInGuaranteed
  | indirectInout
  | indirectInoutAliasable
  | indirectOut
  | directOwned
  | directUnowned
  | directGuaranteed
deriving DecidableEq

/-- `SILArgumentConvention::isGuaranteedConvention`. -/
def ArgConv.isGuaranteed : ArgConv → Bool
  | .indirectInGuaranteed => true
  | .directGuaranteed => true
  | _ => false

/-- `SILArgumentConvention::isIndirectConvention`. -/
def ArgConv.isIndirect : ArgConv → Bool
  | .indirectIn => true
  | .indirectInGuaranteed => true
  | .indirectInout => true
  | .indirectInoutAliasable => true
  | .indirectOut => true
  | _ => false

/-- `SILArgumentConvention::isInoutConvention`. -/
def ArgConv.isInout : ArgConv → Bool
  | .indirectInout => true
  | .indirectInoutAliasable => true
  | _ => false

/-- Instruction payloads: the instruction kinds the pass inspects, with the
fields it reads.  `other` stands for any further kind, carrying its operand
list (every such kind falls into the `default` arm of the source's switches). -/
inductive Inst where
  | allocStack (addr : Nat) (dynamicLifetime : Bool)
  | deallocStack (addr : Nat)
  | copyAddr (src dest : Nat) (isTakeOfSrc isInitOfDest : Bool)
  | store (src dest : Nat) (qual : StoreQual)
  | load (result addr : Nat) (qual : LoadQual)
  | loadBorrow (result addr : Nat)
  | beginAccess (result addr : Nat) (kind : AccessKind)
  | endAccess (token : Nat)
  | openExistentialAddr (result addr : Nat) (access : ExistAccess)
  | uncheckedTakeEnumDataAddr (result addr : Nat) (isOptionalType : Bool)
  | structElementAddr (result addr : Nat)
  | tupleElementAddr (result addr : Nat)
  | apply (args : List (Nat × ArgConv))
  | destroyAddr (addr : Nat)
  | destroyValue (v : Nat)
  | copyValue (result src : Nat)
  | fixLifetime (v : Nat)
  | other (ops : List Nat)
deriving DecidableEq

/-- The operand values an instruction uses (results excluded). -/
def Inst.operands : Inst → List Nat
  | .allocStack _ _ => []
  | .deallocStack a => [a]
  | .copyAddr s d _ _ => [s, d]
  | .store s d _ => [s, d]
  | .load _ a _ => [a]
  | .loadBorrow _ a => [a]
  | .beginAccess _ a _ => [a]
  | .endAccess t => [t]
  | .openExistentialAddr _ a _ => [a]
  | .uncheckedTakeEnumDataAddr _ a _ => [a]
  | .structElementAddr _ a => [a]
  | .tupleElementAddr _ a => [a]
  | .apply args => args.map (fun p => p.1)
  | .destroyAddr a => [a]
  | .destroyValue v => [v]
  | .copyValue _ s => [s]
  | .fixLifetime v => [v]
  | .other ops => ops

/-- The value an instruction defines, if any. -/
def Inst.defines : Inst → Option Nat
  | .allocStack a _ => some a
  | .load r _ _ => some r
  | .loadBorrow r _ => some r
  | .beginAccess r _ _ => some r
  | .openExistentialAddr r _ _ => some r
  | .uncheckedTakeEnumDataAddr r _ _ => some r
  | .structElementAddr r _ => some r
  | .tupleElementAddr r _ => some r
  | .copyValue r _ => some r
  | _ => none

/-- Rewrite the operand values of an instruction (results untouched). -/
def Inst.mapOperands (f : Nat → Nat) : Inst → Inst
  | .allocStack a dyn => .allocStack a dyn
  | .deallocStack a => .deallocStack (f a)
  | .copyAddr s d tk ini => .copyAddr (f s) (f d) tk ini
  | .store s d q => .store (f s) (f d) q
  | .load r a q => .load r (f a) q
  | .loadBorrow r a => .loadBorrow r (f a)
  | .beginAccess r a k => .beginAccess r (f a) k
  | .endAccess t => .endAccess (f t)
  | .openExistentialAddr r a m => .openExistentialAddr r (f a) m
  | .uncheckedTakeEnumDataAddr r a o => .uncheckedTakeEnumDataAddr r (f a) o
  | .structElementAddr r a => .structElementAddr r (f a)
  | .tupleElementAddr r a => .tupleElementAddr r (f a)
  | .apply args => .apply (args.map (fun p => (f p.1, p.2)))
  | .destroyAddr a => .destroyAddr (f a)
  | .destroyValue v => .destroyValue (f v)
  | .copyValue r s => .copyValue r (f s)
  | .fixLifetime v => .fixLifetime (f v)
  | .other ops => .other (ops.map f)

/-- An instruction with its identity: a unique id and the id of the basic block
it belongs to. -/
structure NInst where
  id : Nat
  blk : Nat
  op : Inst
deriving DecidableEq

/-- All uses of value `v` in the function, as pairs of the using instruction
and the index of the using operand (def-use edges, `getUses`). -/
def usesOf (fn : List NInst) (v : Nat) : List (NInst × Nat) :=
  fn.flatMap (fun i =>
    (i.op.operands.enum.filter (fun p => decide (p.2 = v))).map (fun p => (i, p.1)))

/-- The instruction defining value `v`, if any (`getDefiningInstruction`).
Function arguments and other roots have no defining instruction. -/
def defOf (fn : List NInst) (v : Nat) : Option NInst :=
  fn.find? (fun i => decide (i.op.defines = some v))

/-- `stripAccessMarkers`: strip `begin_access` projections off an address. -/
def stripAccessMarkers (fn : List NInst) : Nat → Nat → Nat
  | 0, v => v
  | fuel + 1, v =>
    match defOf fn v with
    | some ⟨_, _, .beginAccess _ a _⟩ => stripAccessMarkers fn fuel a
    | _ => v

/-- Index of the instruction with the given id. -/
def idxOfId (fn : List NInst) (id : Nat) : Nat :=
  fn.findIdx (fun i => decide (i.id = id))

/-- First value id unused by the function (for synthesized results). -/
def freshVal (fn : List NInst) : Nat :=
  (fn.flatMap (fun i => i.op.operands ++ i.op.defines.toList)).foldr max 0 + 1

/-- First instruction id unused by the function (for synthesized instructions). -/
def freshId (fn : List NInst) : Nat :=
  (fn.map (fun i => i.id)).foldr max 0 + 1

/-- The alias-analysis oracle, at the interface the pass consumes
(`AliasAnalysis::mayWriteToMemory` and `AliasAnalysis::isNoAlias`). -/
structure AliasOracle where
  mayWriteToMemory : Inst → Nat → Bool
  isNoAlias : Nat → Nat → Bool

/-- Addresses an instruction writes to, read off syntactically.  On programs
whose addresses are pairwise distinct roots this is exactly the set of
locations the instruction may write, so `rootOracle` below is a sound and
precise alias oracle for such programs. -/
def Inst.writesTo : Inst → List Nat
  | .copyAddr s d tk _ => if tk then [d, s] else [d]
  | .store _ d _ => [d]
  | .load _ a q => if q = .take then [a] else []
  | .destroyAddr a => [a]
  | .beginAccess _ a k => if k = .read then [] else [a]
  | .apply args => (args.filter (fun p => p.2.isInout || p.2 = .indirectOut)).map (fun p => p.1)
  | .other ops => ops
  | _ => []

/-- The alias oracle for programs whose addresses are pairwise distinct roots:
distinct ids never alias, and an instruction may write to an address exactly
when the address occurs among the locations it writes. -/
def rootOracle : AliasOracle where
  mayWriteToMemory i a := (Inst.writesTo i).contains a
  isNoAlias a b := decide (a ≠ b)

/-!
## The use classifier (`collectLoads` / `collectLoadsFromProjection`)

Direct transcription of `TempRValueOptPass::collectLoads` and
`TempRValueOptPass::collectLoadsFromProjection`.  The accumulating read-set
`loadInsts` (a `SmallPtrSet` of instructions in the source) is a finite set of
instruction ids; failure (`return false` in the source) is `none`, success is
`some` of the updated read-set.  The source's recursion through projections is
bounded here by a `fuel` argument; every call site passes `fn.length + 1`,
which covers any acyclic def-use chain of the function.  The source's
short-circuiting loop over a projection's uses is a fold over `Option`
(`none`, once reached, absorbs), inlined at each projection case exactly as
the source calls `collectLoadsFromProjection` there.
-/

/-- `TempRValueOptPass::collectLoads`: classify the single use of the
candidate address held by operand `opIdx` of `user`.  `addrVal`/`addrBlk` are
the address value and the block of its defining instruction; `srcAddr` is the
copy source address if one is known (`SILValue()` in the store variant is
`none`). -/
def collectLoads (aa : AliasOracle) (fn : List NInst) :
    Nat → Nat → NInst → Nat → Nat → Option Nat → Finset Nat → Option (Finset Nat)
  | 0, _, _, _, _, _, _ => none
  | fuel + 1, opIdx, user, addrVal, addrBlk, srcAddr, loadInsts =>
    -- All normal uses (loads) must be in the initialization block.
    if user.blk ≠ addrBlk then none
    else
      match user.op with
      | .beginAccess _ _ kind =>
        if kind = .read then some loadInsts else none
      | .apply args =>
        match args.get? opIdx with
        | none => none
        | some arg =>
          -- Check if the function can just read from the operand.
          if !arg.2.isGuaranteed then none
          -- If we do not have a src address, but are indirect, bail.
          else if srcAddr.isNone && arg.2.isIndirect then none
          else
            match srcAddr with
            | some s =>
              -- Every @inout argument must be proven no-alias with the source.
              if args.all (fun a => !a.2.isInout || aa.isNoAlias a.1 s) then
                some (insert user.id loadInsts)
              else none
            | none => some (insert user.id loadInsts)
      | .openExistentialAddr res _ access =>
        if srcAddr.isNone then none
        else if access ≠ .immutable then none
        else
          -- collectLoadsFromProjection: recurse through the projection's uses.
          (usesOf fn res).foldl
            (fun acc p => acc.bind
              (fun s => collectLoads aa fn fuel p.2 p.1 res user.blk srcAddr s))
            (some loadInsts)
      | .uncheckedTakeEnumDataAddr res _ isOptionalType =>
        -- Only the Optional payload projection is non-destructive.
        if !isOptionalType then none
        else if srcAddr.isNone then none
        else
          (usesOf fn res).foldl
            (fun acc p => acc.bind
              (fun s => collectLoads aa fn fuel p.2 p.1 res user.blk srcAddr s))
            (some loadInsts)
      | .structElementAddr res _ =>
        if srcAddr.isNone then none
        else
          (usesOf fn res).foldl
            (fun acc p => acc.bind
              (fun s => collectLoads aa fn fuel p.2 p.1 res user.blk srcAddr s))
            (some loadInsts)
      | .tupleElementAddr res _ =>
        if srcAddr.isNone then none
        else
          (usesOf fn res).foldl
            (fun acc p => acc.bind
              (fun s => collectLoads aa fn fuel p.2 p.1 res user.blk srcAddr s))
            (some loadInsts)
      | .load _ _ qual =>
        -- A load [take] reaching here is a take of a projection: reject.
        if qual = .take then none
        else some (insert user.id loadInsts)
      | .loadBorrow _ _ =>
        if srcAddr.isNone then none
        else some (insert user.id loadInsts)
      | .fixLifetime _ => some (insert user.id loadInsts)
      | .copyAddr _ dest _ _ =>
        -- copy_addr reading from the temporary is a load; a write to it fails.
        if dest = addrVal then none
        else some (insert user.id loadInsts)
      | _ => none

/-!
## Top-level use scan shared by both rewrite strategies

Both `tryOptimizeCopyIntoTemp` and `tryOptimizeStoreIntoTemp` scan all uses of
the temporary with the same skip rules before handing each remaining use to
`collectLoads`: the initializing instruction itself, `destroy_addr`,
`dealloc_stack`, and a top-level `load [take]` are skipped.
-/

/-- One step of the use scan over the remaining uses.  `initId` is the id of
the initializing `copy_addr`/`store`; `srcAddr` is `some` of the stripped copy
source for the copy variant and `none` for the store variant. -/
def classifyGo (aa : AliasOracle) (fn : List NInst) (initId tempVal tempBlk : Nat)
    (srcAddr : Option Nat) :
    List (NInst × Nat) → Finset Nat → Option (Finset Nat)
  | [], loadInsts => some loadInsts
  | (user, opIdx) :: rest, loadInsts =>
    if user.id = initId then
      classifyGo aa fn initId tempVal tempBlk srcAddr rest loadInsts
    else if (match user.op with
             | .destroyAddr _ => true
             | .deallocStack _ => true
             | _ => false) then
      classifyGo aa fn initId tempVal tempBlk srcAddr rest loadInsts
    else if (match user.op with
             | .load _ _ q => decide (q = LoadQual.take)
             | _ => false) then
      -- load [take] of the whole temporary is a valid lifetime terminator.
      classifyGo aa fn initId tempVal tempBlk srcAddr rest loadInsts
    else
      match collectLoads aa fn (fn.length + 1) opIdx user tempVal tempBlk srcAddr loadInsts with
      | none => none
      | some s => classifyGo aa fn initId tempVal tempBlk srcAddr rest s

/-- Scan all uses of the temporary (the `for (auto *useOper : tempObj->getUses())`
loops of both rewrite strategies). -/
def classifyTempUses (aa : AliasOracle) (fn : List NInst) (initId tempVal tempBlk : Nat)
    (srcAddr : Option Nat) : Option (Finset Nat) :=
  classifyGo aa fn initId tempVal tempBlk srcAddr (usesOf fn tempVal) ∅

/-!
## The source-mutation checker (`checkNoSourceModification`)
-/

/-- Number of scan instructions that belong to the read-set. -/
def countReads (useInsts : Finset Nat) (l : List NInst) : Nat :=
  (l.filter (fun i => decide (i.id ∈ useInsts))).length

/-- `TempRValueOptPass::checkNoSourceModification`: scan the instructions after
the initializing copy (the list argument) to the end of its block, counting
read-set members; succeed once the whole read-set has been seen, fail at the
first possible write to the source before that, and fail if the block ends
first. -/
def checkNoSourceModification (aa : AliasOracle) (copySrc : Nat) (useInsts : Finset Nat) :
    List NInst → Nat → Bool
  | [], _ =>
    -- Not all normal uses were seen before the end of the block: fail.
    false
  | i :: rest, numLoadsFound =>
    let n := if i.id ∈ useInsts then numLoadsFound + 1 else numLoadsFound
    -- If this is the last use of the temp we are ok.
    if n = useInsts.card then true
    else if aa.mayWriteToMemory i.op copySrc then false
    else checkNoSourceModification aa copySrc useInsts rest n

/-- The instructions strictly after the one with id `id`
(`std::next(copyInst->getIterator())` to block end). -/
def instsAfter (fn : List NInst) (id : Nat) : List NInst :=
  (fn.dropWhile (fun i => decide (i.id ≠ id))).drop 1

/-!
## The destroy-pattern checker (`checkTempObjectDestroy`)
-/

/-- The non-copy, non-dealloc users handed to the lifetime-frontier utility. -/
def vlaUsers (fn : List NInst) (tempVal copyId : Nat) : List NInst :=
  (usesOf fn tempVal).filterMap (fun p =>
    if p.1.id = copyId then none
    else match p.1.op with
      | .deallocStack _ => none
      | _ => some p.1)

/-- Modelled from the spec: the lifetime-frontier utility
(`ValueLifetimeAnalysis::computeFrontier`, whose implementation lives outside
this repository's sources) computes "the boundary after which none of the
users' effects remain observable", without modifying control flow.  For the
single-block functions modelled here this is the single instruction directly
after the last user (or after the defining instruction when there is no user);
it fails when that boundary would fall past the block's end, which the
`DontModifyCFG` mode cannot represent. -/
def computeFrontier (fn : List NInst) (copyId : Nat) (users : List NInst) : Option (List Nat) :=
  let defIdx := idxOfId fn copyId
  let lastIdx := users.foldl (fun m u => max m (idxOfId fn u.id)) defIdx
  if lastIdx + 1 < fn.length then some [lastIdx + 1] else none

/-- The accepted destroy points preceding a frontier instruction: a
`destroy_addr`, a `load [take]`, or a `copy_addr [take]` (the source asserts,
but does not test, that such a copy reads from the temporary). -/
def isOrthodoxDestroy : Inst → Bool
  | .destroyAddr _ => true
  | .load _ _ q => q = LoadQual.take
  | .copyAddr _ _ tk _ => tk
  | _ => false

/-- One frontier instruction, given by its index, is checked: a frontier at the
head of the block fails; otherwise the directly preceding instruction must be
an accepted destroy point. -/
def frontierPointOk (fn : List NInst) (f : Nat) : Bool :=
  if f = 0 then false
  else
    match fn.get? (f - 1) with
    | none => false
    | some prev => isOrthodoxDestroy prev.op

/-- `TempRValueOptPass::checkTempObjectDestroy`: trivially satisfied when the
initializing copy takes its source (returning an empty frontier, as the source
leaves `tempAddressFrontier` empty in that case); otherwise compute the
lifetime frontier of the temporary's address and demand every frontier point be
directly preceded by an accepted destroy.  `none` is failure; `some` returns
the frontier for use during the rewrite. -/
def checkTempObjectDestroy (fn : List NInst) (tempVal copyId : Nat) (copyIsTake : Bool) :
    Option (List Nat) :=
  if copyIsTake then some []
  else
    match computeFrontier fn copyId (vlaUsers fn tempVal copyId) with
    | none => none
    | some frontier =>
      if frontier.all (fun f => frontierPointOk fn f) then some frontier else none

/-!
## The rewriter — copy-replacement variant

The source's rewrite loop (`while (!tempObj->use_empty())`) handles each use
independently, deferring deletions; the model expresses the same per-use
treatment as one pass over the block that maps every original instruction to
the (possibly empty) list of instructions replacing it, with the compensating
instructions for `load [take]` uses interleaved at their insertion points.
-/

/-- The `load [take]` users of the temporary, in program order. -/
def loadTakesOf (fn : List NInst) (tempVal : Nat) : List NInst :=
  fn.filter (fun i =>
    match i.op with
    | .load _ a q => decide (a = tempVal) && decide (q = LoadQual.take)
    | _ => false)

/-- The insertion points for the compensating `destroy_value`s of one
`load [take]` rewrite: the source walks the frontier, skips the point whose
directly preceding instruction is the original load, and inserts before that
preceding instruction (`SILBuilderWithScope builder(prevInst)`), i.e. at index
`f - 1`. -/
def takeDestroyPositions (fn : List NInst) (liId : Nat) (frontier : List Nat) : List Nat :=
  frontier.filterMap (fun f =>
    match fn.get? (f - 1) with
    | some prev => if prev.id = liId then none else some (f - 1)
    | none => none)

/-- The value substitution performed by `li->replaceAllUsesWith(newLoad)`: the
result of the k-th `load [take]` is rerouted to the k-th synthesized
`load [copy]`. -/
def takeSubst (fn : List NInst) (tempVal : Nat) (copyTake : Bool) (vb : Nat) :
    List (Nat × Nat) :=
  if copyTake then []
  else
    (loadTakesOf fn tempVal).enum.filterMap (fun p =>
      match p.2.op with
      | .load r _ _ => some (r, vb + p.1)
      | _ => none)

/-- Apply a value substitution to one value. -/
def substVal (sub : List (Nat × Nat)) (v : Nat) : Nat :=
  match sub.find? (fun p => decide (p.1 = v)) with
  | some p => p.2
  | none => v

/-- Apply a value substitution to the operands of an instruction. -/
def applySubst (sub : List (Nat × Nat)) (i : NInst) : NInst :=
  ⟨i.id, i.blk, i.op.mapOperands (substVal sub)⟩

/-- The `load [copy]`s synthesized at the initializer's position, one per
`load [take]` of the temporary (`builder.emitLoadValueOperation` at
`copyInst`). -/
def newLoadEmits (fn : List NInst) (blk rawSrc : Nat) (copyTake : Bool) (tempVal ib vb : Nat) :
    List NInst :=
  if copyTake then []
  else
    (loadTakesOf fn tempVal).enum.map (fun p =>
      ⟨ib + p.1, blk, .load (vb + p.1) rawSrc LoadQual.copy⟩)

/-- The compensating `destroy_value`s to be placed directly before original
index `idx` (the source's `builder.emitDestroyValueOperation` before
`prevInst`). -/
def takeDestroyEmitsAt (fn : List NInst) (blk : Nat) (frontier : List Nat) (copyTake : Bool)
    (tempVal ib vb idx : Nat) : List NInst :=
  if copyTake then []
  else
    (loadTakesOf fn tempVal).enum.flatMap (fun p =>
      ((takeDestroyPositions fn p.2.id frontier).filter (fun q => decide (q = idx))).map
        (fun q =>
          ⟨ib + (loadTakesOf fn tempVal).length + p.1 * fn.length + q, blk,
            .destroyValue (vb + p.1)⟩))

/-- The per-use treatment of the rewrite loop's `switch (user->getKind())`:
the list of instructions replacing one original instruction. -/
def rewriteInstForTemp (copyId rawSrc copySrc tempVal : Nat) (copyTake : Bool) (i : NInst) :
    List NInst :=
  let sub := fun v => if v = tempVal then copySrc else v
  match i.op with
  | .allocStack a _ =>
    -- tempObj->eraseFromParent() at the end of the rewrite.
    if a = tempVal then [] else [i]
  | .destroyAddr a =>
    if a ≠ tempVal then [i]
    else if copyTake then [⟨i.id, i.blk, .destroyAddr copySrc⟩]
    else []
  | .deallocStack a => if a = tempVal then [] else [i]
  | .copyAddr s d tk ini =>
    if s ≠ tempVal ∧ d ≠ tempVal then [i]
    else if i.id = copyId then
      -- The initializer keeps its raw source and has its dest use set to the
      -- copy source, leaving an identity copy for the driver to collect.
      [⟨i.id, i.blk, .copyAddr s (sub d) tk ini⟩]
    else
      -- A copy reading from the temporary: demote a take if the initializer
      -- did not consume its source, and redirect to the copy source.
      let tk' := if tk ∧ ¬copyTake then false else tk
      [⟨i.id, i.blk, .copyAddr (sub s) (sub d) tk' ini⟩]
  | .load r a q =>
    if a ≠ tempVal then [i]
    else if q ≠ LoadQual.take ∨ copyTake then
      -- Normal thing: read the copy's (raw) source directly.
      [⟨i.id, i.blk, .load r rawSrc q⟩]
    else
      -- load [take] without a taking initializer: deleted; a load [copy] and
      -- compensating destroys are synthesized elsewhere and its uses rerouted.
      []
  | _ =>
    if tempVal ∈ i.op.operands then [⟨i.id, i.blk, i.op.mapOperands sub⟩] else [i]

/-- The whole rewrite of a successful `tryOptimizeCopyIntoTemp`. -/
def rewriteCopy (fn : List NInst) (copyId blk rawSrc copySrc tempVal : Nat) (copyTake : Bool)
    (frontier : List Nat) : List NInst :=
  let ib := freshId fn
  let vb := freshVal fn
  let cIdx := idxOfId fn copyId
  let out := fn.enum.flatMap (fun p =>
    takeDestroyEmitsAt fn blk frontier copyTake tempVal ib vb p.1
      ++ (if p.1 = cIdx then newLoadEmits fn blk rawSrc copyTake tempVal ib vb else [])
      ++ rewriteInstForTemp copyId rawSrc copySrc tempVal copyTake p.2)
  out.map (applySubst (takeSubst fn tempVal copyTake vb))

/-- The eligibility-check stage of `TempRValueOptPass::tryOptimizeCopyIntoTemp`,
in the source's order: the candidate must be an initializing `copy_addr` whose
destination is exactly an `alloc_stack`; then use classification, the
source-mutation check and the destroy-pattern check must all pass.  The source
performs all of these before the first IR mutation; staging them as one
function returning the data the rewrite needs (`(blk, rawSrc, tempVal, tk,
frontier)`) keeps that structure explicit.  `none` is any failed check. -/
def copyOptChecks (aa : AliasOracle) (fn : List NInst) (copyId : Nat) :
    Option (Nat × Nat × Nat × Bool × List Nat) :=
  match fn.find? (fun i => decide (i.id = copyId)) with
  | some ⟨_, blk, .copyAddr rawSrc dest tk ini⟩ =>
    if !ini then none
    else
      match defOf fn dest with
      | some ⟨_, allocBlk, .allocStack _ _⟩ =>
        let copySrc := stripAccessMarkers fn fn.length rawSrc
        match classifyTempUses aa fn copyId dest allocBlk (some copySrc) with
        | none => none
        | some loadInsts =>
          if !checkNoSourceModification aa copySrc loadInsts (instsAfter fn copyId) 0 then
            none
          else
            match checkTempObjectDestroy fn dest copyId tk with
            | none => none
            | some frontier => some (blk, rawSrc, dest, tk, frontier)
      | _ => none
  | _ => none

/-- `TempRValueOptPass::tryOptimizeCopyIntoTemp`: attempt the copy-replacement
strategy for the `copy_addr` with id `copyId`.  Returns the new function body
and whether a rewrite happened; on any failed eligibility check the body is
returned unchanged. -/
def tryOptimizeCopyIntoTemp (aa : AliasOracle) (fn : List NInst) (copyId : Nat) :
    List NInst × Bool :=
  match copyOptChecks aa fn copyId with
  | none => (fn, false)
  | some (blk, rawSrc, dest, tk, frontier) =>
    (rewriteCopy fn copyId blk rawSrc (stripAccessMarkers fn fn.length rawSrc) dest tk
      frontier, true)

/-!
## The rewriter — store-replacement variant (`tryOptimizeStoreIntoTemp`)

The result distinguishes the recoverable outcomes (`res`, carrying the new
body, the position to resume iteration at, and whether a rewrite happened)
from the process abort of the rewrite loop's default arm
(`llvm_unreachable("Unhandled case?!")`), modelled as `crash`.
-/

inductive StoreRes where
  | res (fn : List NInst) (next : Nat) (changed : Bool)
  | crash
deriving DecidableEq

/-- The loads of the temporary, in program order (each is RAUWed during the
store rewrite). -/
def loadsOf (fn : List NInst) (tempVal : Nat) : List NInst :=
  fn.filter (fun i =>
    match i.op with
    | .load _ a _ => decide (a = tempVal)
    | _ => false)

/-- The value substitution of the store rewrite: the result of the k-th load
of the temporary is rerouted to the stored value, or for a `load [copy]` to
the k-th synthesized `copy_value`. -/
def storeSubst (fn : List NInst) (tempVal storedVal vb : Nat) : List (Nat × Nat) :=
  (loadsOf fn tempVal).enum.filterMap (fun p =>
    match p.2.op with
    | .load r _ q => some (r, if q = LoadQual.copy then vb + p.1 else storedVal)
    | _ => none)

/-- The `switch (user->getKind())` of the store rewrite loop: the instructions
replacing one original instruction, or `none` for the unreachable default arm.
`vb`/`ib` are the bases for synthesized values and instruction ids. -/
def rewriteStoreInst (fn : List NInst) (siId storedVal tempVal vb ib : Nat) (i : NInst) :
    Option (List NInst) :=
  if i.id = siId then some [i]
  else if !(i.op.operands.contains tempVal) then some [i]
  else
    match i.op with
    | .destroyAddr _ =>
      -- emitDestroyValueOperation before the destroy, then delete it.
      some [⟨ib + 2 * idxOfId fn i.id, i.blk, .destroyValue storedVal⟩]
    | .deallocStack _ => some []
    | .copyAddr _ d tk ini =>
      -- Reading copy: becomes a store of the stored value (duplicated first
      -- unless the copy consumed the temporary).
      let q := if ini then StoreQual.init else StoreQual.assign
      if tk then some [⟨ib + 2 * idxOfId fn i.id, i.blk, .store storedVal d q⟩]
      else
        some [⟨ib + 2 * idxOfId fn i.id, i.blk, .copyValue (vb + idxOfId fn i.id + fn.length) storedVal⟩,
              ⟨ib + 2 * idxOfId fn i.id + 1, i.blk,
                .store (vb + idxOfId fn i.id + fn.length) d q⟩]
    | .load _ _ q =>
      -- RAUW any load [take] directly; insert a copy + RAUW for load [copy].
      let k := (loadsOf fn tempVal).findIdx (fun j => decide (j.id = i.id))
      if q = LoadQual.copy then
        some [⟨ib + 2 * idxOfId fn i.id, i.blk, .copyValue (vb + k) storedVal⟩]
      else some []
    | .fixLifetime _ =>
      some [⟨ib + 2 * idxOfId fn i.id, i.blk, .fixLifetime storedVal⟩]
    | _ =>
      -- llvm_unreachable("Unhandled case?!")
      none

/-- The precondition and classification stage of
`TempRValueOptPass::tryOptimizeStoreIntoTemp`, in the source's order: the
store must not be an assign, its destination must be exactly an `alloc_stack`
without dynamic lifetime, and every use must classify (with no source
address).  All of this precedes the first IR mutation; `none` is any failed
check, `some (siId, storedVal, tempVal, allocId)` carries what the rewrite
needs. -/
def storeOptChecks (aa : AliasOracle) (fn : List NInst) (siIdx : Nat) :
    Option (Nat × Nat × Nat × Nat) :=
  match fn.get? siIdx with
  | some ⟨siId, _, .store storedVal dest q⟩ =>
    -- If our store is an assign, bail.
    if q = StoreQual.assign then none
    else
      match defOf fn dest with
      | some ⟨allocId, allocBlk, .allocStack _ dyn⟩ =>
        -- A temporary with a dynamic lifetime cannot be converted: bail.
        if dyn then none
        else
          match classifyTempUses aa fn siId dest allocBlk none with
          | none => none
          | some _ => some (siId, storedVal, dest, allocId)
      | _ => none
  | _ => none

/-- The commit stage of `tryOptimizeStoreIntoTemp`: rewrite every use of the
temporary (aborting on an unclassified kind), erase the store and the
allocation, and compute the position at which iteration resumes. -/
def storeOptCommit (fn : List NInst) (siId storedVal tempVal allocId : Nat) : StoreRes :=
  match fn.mapM (fun i =>
      rewriteStoreInst fn siId storedVal tempVal (freshVal fn) (freshId fn) i) with
  | none => .crash
  | some pieces =>
    let fn1 := (pieces.flatten).map (applySubst (storeSubst fn tempVal storedVal (freshVal fn)))
    -- nextIter = std::next(si) after the deferred deletions, then si and
    -- tempObj are erased.
    let afterPos := idxOfId fn1 siId + 1
    let nextInst := (fn1.drop afterPos).find? (fun j =>
      decide (j.id ≠ siId) && decide (j.id ≠ allocId))
    let fn2 := fn1.filter (fun j => decide (j.id ≠ siId) && decide (j.id ≠ allocId))
    let next := match nextInst with
      | some j => idxOfId fn2 j.id
      | none => fn2.length
    .res fn2 next true

/-- `TempRValueOptPass::tryOptimizeStoreIntoTemp` for the `store` at position
`siIdx`.  Failure of a precondition or of classification returns the body
unchanged with the next position; success rewrites every use, erases the store
and the allocation, and resumes after the store. -/
def tryOptimizeStoreIntoTemp (aa : AliasOracle) (fn : List NInst) (siIdx : Nat) : StoreRes :=
  match storeOptChecks aa fn siIdx with
  | none => .res fn (siIdx + 1) false
  | some (siId, storedVal, tempVal, allocId) =>
    storeOptCommit fn siId storedVal tempVal allocId

/-!
## The driver (`run`)
-/

/-- Result of one pass invocation: the function body and whether the pass
signalled instruction invalidation (`invalidateAnalysis` is called exactly
when `changed` holds), or a process abort bubbled up from the store rewrite.
Running out of the (generous) structural fuel of `runLoop` also lands on
`crash`; it is unreachable for the programs considered here. -/
inductive RunRes where
  | done (fn : List NInst) (changed : Bool)
  | crash
deriving DecidableEq

/-- Modelled from the spec: the cleanup sweep's `simplifyInstruction` of a dead
copy's now-unused source producer (implementation outside this repository's
sources).  The address roots modelled here are opaque arguments and
allocations, for which no simplification applies, so the sweep only erases the
dead copies themselves (`sortUnique` plus per-copy erasure; erasing by id is
insensitive to the duplicates and ordering that `sortUnique` normalizes). -/
def cleanupDeadCopies (fn : List NInst) (deadCopies : List Nat) : List NInst :=
  fn.filter (fun i => decide (i.id ∉ deadCopies))

/-- The instruction sweep of `TempRValueOptPass::run`: walk the block,
dispatch `copy_addr`s to `tryOptimizeCopyIntoTemp` (queueing identity copies),
dispatch `store`s to `tryOptimizeStoreIntoTemp` (resuming at the returned
position), and on block end erase the queued dead copies. -/
def runLoop (aa : AliasOracle) :
    Nat → List NInst → Nat → List Nat → Bool → RunRes
  | 0, _, _, _, _ => .crash
  | fuel + 1, fn, pos, deadCopies, changed =>
    match fn.get? pos with
    | none => .done (cleanupDeadCopies fn deadCopies) changed
    | some i =>
      match i.op with
      | .copyAddr _ _ _ _ =>
        let r := tryOptimizeCopyIntoTemp aa fn i.id
        let fn' := r.1
        match fn'.find? (fun j => decide (j.id = i.id)) with
        | some ci =>
          match ci.op with
          | .copyAddr s d _ _ =>
            -- Remove identity copies (from a successful rewrite or an earlier
            -- iteration copying the temporary back to the source).
            if stripAccessMarkers fn' fn'.length s = d then
              runLoop aa fuel fn' (idxOfId fn' i.id + 1) (deadCopies ++ [i.id]) true
            else
              runLoop aa fuel fn' (idxOfId fn' i.id + 1) deadCopies (changed || r.2)
          | _ => .crash
        | none => .crash
      | .store _ _ _ =>
        match tryOptimizeStoreIntoTemp aa fn pos with
        | .crash => .crash
        | .res fn' next ch => runLoop aa fuel fn' next deadCopies (changed || ch)
      | _ => runLoop aa fuel fn (pos + 1) deadCopies changed

/-- `TempRValueOptPass::run`: one invocation of the pass on a function. -/
def run (aa : AliasOracle) (fn : List NInst) : RunRes :=
  runLoop aa (4 * fn.length + 8) fn 0 [] false

/-!
## Concrete programs

Addresses `100`, `40`, `41` play the role of function-argument roots; the
`alloc_stack` results and all value ids are pairwise distinct, so `rootOracle`
answers every alias query for these programs the way any sound alias oracle
must.
-/

/-- A function with two temporaries: `%200` is initialized from `%100` and read
after the spot where `%201` (also initialized from `%100`) is moved back into
`%100`.  The move back into the source blocks the first candidate during the
sweep, and is itself eliminated later in the same sweep. -/
def pIdem : List NInst :=
  [⟨0, 0, .allocStack 200 false⟩,
   ⟨1, 0, .allocStack 201 false⟩,
   ⟨2, 0, .copyAddr 100 200 false true⟩,
   ⟨3, 0, .copyAddr 100 201 false true⟩,
   ⟨4, 0, .copyAddr 201 100 true false⟩,
   ⟨5, 0, .load 300 200 .unqualified⟩,
   ⟨6, 0, .destroyAddr 200⟩,
   ⟨7, 0, .deallocStack 201⟩,
   ⟨8, 0, .deallocStack 200⟩]

/-- The body left by the first `run` over `pIdem`: the second temporary and
the identity copies are gone, and the first candidate survives in exactly the
canonical eliminable pattern. -/
def pIdem1 : List NInst :=
  [⟨0, 0, .allocStack 200 false⟩,
   ⟨2, 0, .copyAddr 100 200 false true⟩,
   ⟨5, 0, .load 300 200 .unqualified⟩,
   ⟨6, 0, .destroyAddr 200⟩,
   ⟨8, 0, .deallocStack 200⟩]

/-- A store-initialized temporary whose only classified use is a read-only
scoped access. -/
def pStore : List NInst :=
  [⟨0, 0, .allocStack 50 false⟩,
   ⟨1, 0, .store 60 50 .init⟩,
   ⟨2, 0, .beginAccess 51 50 .read⟩,
   ⟨3, 0, .endAccess 51⟩,
   ⟨4, 0, .destroyAddr 50⟩,
   ⟨5, 0, .deallocStack 50⟩]

/-- A copy-initialized temporary consumed by a `load [take]`, with a
`copy_addr [take]` out of the temporary directly preceding the lifetime
frontier point (the use at id 4). -/
def pTake : List NInst :=
  [⟨0, 0, .allocStack 50 false⟩,
   ⟨1, 0, .copyAddr 40 50 false true⟩,
   ⟨2, 0, .load 60 50 .take⟩,
   ⟨3, 0, .copyAddr 50 41 true true⟩,
   ⟨4, 0, .other [60]⟩,
   ⟨5, 0, .deallocStack 50⟩]

/-!
## C1 — the store rewrite's unreachable default arm is reachable

The use classifier accepts a read-only `begin_access` (`collectLoads`, case
`BeginAccessInst`) — and likewise a guaranteed-convention `apply` — without a
source address, but the rewrite loop of `tryOptimizeStoreIntoTemp` has no case
for it, so a fully classified candidate drives the loop into
`llvm_unreachable("Unhandled case?!")`.
-/

/-- C1: the claim fails on the code.  For the store-initialized temporary of
`pStore`, every use is accepted by the use classifier (with no source
address), yet the rewrite loop reaches its process-aborting default branch on
the `begin_access [read]` use.  The accepted-use list of the rewrite loop is
strictly smaller than what the classifier accepts, contradicting the claimed
unreachability. -/
theorem storeRewrite_aborts_on_classified_beginAccess :
    classifyTempUses rootOracle pStore 1 50 0 none = some ∅ ∧
    tryOptimizeStoreIntoTemp rootOracle pStore 1 = .crash := by
  constructor
  · decide
  · decide

/-!
## C9 — the pass is not idempotent

During the first sweep over `pIdem` the candidate copy at id 2 is rejected:
the scan of `checkNoSourceModification` runs into the later
`copy_addr [take] %201 to %100`, which may write the source `%100`.  That
very copy is eliminated later in the same sweep (and the resulting identity
copies are erased in the cleanup), so the second invocation finds the
candidate unblocked, rewrites it, deletes instructions and signals
invalidation again.
-/

/-- C9: the claim fails on the code.  The first run over `pIdem` yields
`pIdem1` with changes; the second run, far from performing no rewrite, changes
the function again and signals invalidation again. -/
theorem run_not_idempotent :
    run rootOracle pIdem = .done pIdem1 true ∧
    run rootOracle pIdem1 = .done [⟨5, 0, .load 300 100 .unqualified⟩] true ∧
    ([⟨5, 0, .load 300 100 LoadQual.unqualified⟩] : List NInst) ≠ pIdem1 := by
  refine ⟨by decide, by decide, by decide⟩


/-!
## C2 — the source-mutation checker matches its specification
-/

theorem countReads_cons (S : Finset Nat) (i : NInst) (l : List NInst) :
    countReads S (i :: l) = (if i.id ∈ S then 1 else 0) + countReads S l := by
  by_cases h : i.id ∈ S
  · simp [countReads, List.filter, h]
    omega
  · simp [countReads, List.filter, h]

/-- Helper for C2, generalized over the running count `n`: the scan succeeds
exactly when some scanned prefix brings the count up to the read-set's size
while no instruction strictly before that point may write the source. -/
theorem checkNoSourceModification_iff (aa : AliasOracle) (src : Nat) (S : Finset Nat) :
    ∀ (l : List NInst) (n : Nat),
      checkNoSourceModification aa src S l n = true ↔
        ∃ k, k < l.length ∧ n + countReads S (l.take (k + 1)) = S.card ∧
          ∀ j, j < k → ∀ i, l.get? j = some i → aa.mayWriteToMemory i.op src = false := by
  intro l
  induction l with
  | nil => intro n; simp [checkNoSourceModification]
  | cons i rest ih =>
    intro n
    have hone : countReads S (List.take 1 (i :: rest)) = if i.id ∈ S then 1 else 0 := by
      rw [List.take_succ_cons, List.take_zero, countReads_cons]
      simp [countReads]
    simp only [checkNoSourceModification]
    by_cases h1 : (if i.id ∈ S then n + 1 else n) = S.card
    · rw [if_pos h1]
      constructor
      · intro _
        refine ⟨0, by simp, ?_, by omega⟩
        rw [hone]
        by_cases hm : i.id ∈ S <;> simp [hm] at h1 ⊢ <;> omega
      · intro _; rfl
    · rw [if_neg h1]
      by_cases h2 : aa.mayWriteToMemory i.op src
      · rw [if_pos h2]
        constructor
        · intro hfalse; exact absurd hfalse (by simp)
        · rintro ⟨k, hk, hsum, hprev⟩
          exfalso
          match k with
          | 0 =>
            rw [hone] at hsum
            apply h1
            by_cases hm : i.id ∈ S <;> simp [hm] at hsum ⊢ <;> omega
          | k' + 1 =>
            have := hprev 0 (by omega) i rfl
            rw [this] at h2
            exact Bool.noConfusion h2
      · rw [if_neg h2, ih]
        constructor
        · rintro ⟨k', hk', hsum', hprev'⟩
          refine ⟨k' + 1, by simp only [List.length_cons]; omega, ?_, ?_⟩
          · rw [List.take_succ_cons, countReads_cons]
            by_cases hm : i.id ∈ S <;> simp [hm] at hsum' ⊢ <;> omega
          · intro j hj i' hi'
            match j with
            | 0 =>
              simp only [List.get?] at hi'
              cases hi'
              simpa using h2
            | j' + 1 =>
              exact hprev' j' (by omega) i' hi'
        · rintro ⟨k, hk, hsum, hprev⟩
          match k with
          | 0 =>
            exfalso
            rw [hone] at hsum
            apply h1
            by_cases hm : i.id ∈ S <;> simp [hm] at hsum ⊢ <;> omega
          | k' + 1 =>
            refine ⟨k', by simp only [List.length_cons] at hk; omega, ?_, ?_⟩
            · rw [List.take_succ_cons, countReads_cons] at hsum
              by_cases hm : i.id ∈ S <;> simp [hm] at hsum ⊢ <;> omega
            · intro j hj i' hi'
              exact hprev (j + 1) (by omega) i' hi'

/-- C2: the source-mutation checker, scanning the instructions after the
initializing copy to the end of its block with a zero count, succeeds exactly
when some scanned prefix exhausts the read-set — success fires at the very
instruction whose read completes the count, regardless of any later mutation —
while the alias oracle clears every instruction strictly before that point of
writing to memory aliasing the source; failure therefore happens exactly at
the first earlier may-write, or when the block end is reached before the count
equals the read-set's size. -/
theorem checkNoSourceModification_spec (aa : AliasOracle) (src : Nat) (S : Finset Nat)
    (l : List NInst) :
    checkNoSourceModification aa src S l 0 = true ↔
      ∃ k, k < l.length ∧ countReads S (l.take (k + 1)) = S.card ∧
        ∀ j, j < k → ∀ i, l.get? j = some i → aa.mayWriteToMemory i.op src = false := by
  simpa using checkNoSourceModification_iff aa src S l 0

/-!
## C3 â the destroy-pattern checker matches its specification
-/

/-- The accepted destroy points, as a disjunction of shapes. -/
theorem isOrthodoxDestroy_iff (op : Inst) :
    isOrthodoxDestroy op = true ↔
      (∃ a, op = .destroyAddr a) ∨ (∃ r a, op = .load r a LoadQual.take) ∨
      (∃ s d ini, op = .copyAddr s d true ini) := by
  cases op <;> simp [isOrthodoxDestroy]

/-- One frontier point passes exactly when it is not at the head of the block
and the directly preceding instruction is an accepted destroy; the hypothesis
discharges the source's `assert(cai->getSrc() == tempObj)`, which the caller
guarantees via `collectLoads`. -/
theorem frontierPointOk_iff (fn : List NInst) (tempVal : Nat) (f : Nat)
    (hsrc : ∀ prev : NInst, fn.get? (f - 1) = some prev →
      ∀ s d tk ini, prev.op = .copyAddr s d tk ini → s = tempVal) :
    frontierPointOk fn f = true ↔
      f ≠ 0 ∧ ∃ prev : NInst, fn.get? (f - 1) = some prev ∧
        ((∃ a, prev.op = .destroyAddr a) ∨
         (∃ r a, prev.op = .load r a LoadQual.take) ∨
         (∃ d ini, prev.op = .copyAddr tempVal d true ini)) := by
  unfold frontierPointOk
  by_cases h0 : f = 0
  · simp [h0]
  · rw [if_neg h0]
    cases hget : fn.get? (f - 1) with
    | none => simp [h0]
    | some prev =>
      simp only [h0, ne_eq, not_false_iff, true_and]
      constructor
      · intro hok
        refine ⟨prev, rfl, ?_⟩
        rcases (isOrthodoxDestroy_iff prev.op).mp hok with h | h | ⟨s, d, ini, hop⟩
        · exact Or.inl h
        · exact Or.inr (Or.inl h)
        · have hs := hsrc prev hget s d true ini hop
          subst hs
          exact Or.inr (Or.inr ⟨d, ini, hop⟩)
      · rintro ⟨prev', hget', hdisj⟩
        cases hget'
        apply (isOrthodoxDestroy_iff prev.op).mpr
        rcases hdisj with h | h | ⟨d, ini, hop⟩
        · exact Or.inl h
        · exact Or.inr (Or.inl h)
        · exact Or.inr (Or.inr ⟨tempVal, d, ini, hop⟩)

/-- C3: the destroy-pattern checker succeeds immediately (with an empty
frontier) when the initializing copy takes its source; otherwise, given the
computed lifetime frontier, it succeeds exactly when every frontier
instruction is not the first instruction of its block and is directly preceded
by a `destroy_addr`, a `load [take]`, or a `copy_addr [take]` out of the
temporary, and fails for any other preceding instruction.  The first
hypothesis fixes the computed frontier; the second discharges the source's
assertion that a preceding `copy_addr` reads from the temporary. -/
theorem checkTempObjectDestroy_spec (fn : List NInst) (tempVal copyId : Nat) :
    (checkTempObjectDestroy fn tempVal copyId true = some []) ∧
    (∀ frontier, computeFrontier fn copyId (vlaUsers fn tempVal copyId) = some frontier →
      (∀ f ∈ frontier, ∀ prev : NInst, fn.get? (f - 1) = some prev →
        ∀ s d tk ini, prev.op = .copyAddr s d tk ini → s = tempVal) →
      (checkTempObjectDestroy fn tempVal copyId false = some frontier ↔
        ∀ f ∈ frontier, f ≠ 0 ∧ ∃ prev : NInst, fn.get? (f - 1) = some prev ∧
          ((∃ a, prev.op = .destroyAddr a) ∨
           (∃ r a, prev.op = .load r a LoadQual.take) ∨
           (∃ d ini, prev.op = .copyAddr tempVal d true ini)))) := by
  constructor
  · simp [checkTempObjectDestroy]
  · intro frontier hfr hsrc
    simp only [checkTempObjectDestroy, Bool.false_eq_true, if_false, hfr]
    by_cases hall : frontier.all (fun f => frontierPointOk fn f) = true
    · rw [if_pos hall]
      rw [List.all_eq_true] at hall
      constructor
      · intro _ f hf
        exact (frontierPointOk_iff fn tempVal f (hsrc f hf)).mp (hall f hf)
      · intro _; rfl
    · rw [if_neg hall]
      constructor
      · intro h; exact absurd h (by simp)
      · intro hpts
        exfalso
        apply hall
        rw [List.all_eq_true]
        intro f hf
        exact (frontierPointOk_iff fn tempVal f (hsrc f hf)).mpr (hpts f hf)

/-- The canonical destroy pattern, used to witness C3. -/
def pDestroy : List NInst :=
  [⟨0, 0, .allocStack 50 false⟩,
   ⟨1, 0, .copyAddr 40 50 false true⟩,
   ⟨2, 0, .destroyAddr 50⟩,
   ⟨3, 0, .deallocStack 50⟩]

/-- Witness for C3 at `pDestroy`: its frontier is the single point after the
`destroy_addr`, and the checker accepts it. -/
theorem checkTempObjectDestroy_spec_witness :
    checkTempObjectDestroy pDestroy 50 1 false = some [3] := by
  apply ((checkTempObjectDestroy_spec pDestroy 50 1).2 [3] (by decide) ?_).mpr ?_
  · intro f hf prev hget s d tk ini hop
    have hf3 : f = 3 := by simpa using hf
    subst hf3
    have hprev : prev = ⟨2, 0, .destroyAddr 50⟩ := by
      have : pDestroy.get? 2 = some ⟨2, 0, .destroyAddr 50⟩ := rfl
      rw [this] at hget
      exact (Option.some_injective _ hget).symm
    subst hprev
    exact Inst.noConfusion hop
  · intro f hf
    have hf3 : f = 3 := by simpa using hf
    subst hf3
    exact ⟨by decide, ⟨2, 0, .destroyAddr 50⟩, rfl, Or.inl ⟨50, rfl⟩⟩

/-!
## C5 — failed candidates leave the IR untouched
-/

/-- Failure of the copy-replacement strategy returns the body unchanged. -/
theorem tryOptimizeCopyIntoTemp_false_eq (aa : AliasOracle) (fn : List NInst) (copyId : Nat)
    (h : (tryOptimizeCopyIntoTemp aa fn copyId).2 = false) :
    tryOptimizeCopyIntoTemp aa fn copyId = (fn, false) := by
  unfold tryOptimizeCopyIntoTemp at h ⊢
  cases hpl : copyOptChecks aa fn copyId with
  | none => rfl
  | some plan =>
    obtain ⟨blk, rawSrc, dest, tk, frontier⟩ := plan
    rw [hpl] at h
    exact absurd h (by simp)

/-- Failure of the store-replacement strategy returns the body unchanged and
resumes directly after the store. -/
theorem tryOptimizeStoreIntoTemp_false_eq (aa : AliasOracle) (fn : List NInst) (siIdx : Nat)
    (fn' : List NInst) (next : Nat)
    (h : tryOptimizeStoreIntoTemp aa fn siIdx = .res fn' next false) :
    fn' = fn ∧ next = siIdx + 1 := by
  unfold tryOptimizeStoreIntoTemp at h
  cases hpl : storeOptChecks aa fn siIdx with
  | none =>
    rw [hpl] at h
    injection h with h1 h2 h3
    exact ⟨h1.symm, h2.symm⟩
  | some plan =>
    obtain ⟨siId, storedVal, tempVal, allocId⟩ := plan
    simp only [hpl] at h
    unfold storeOptCommit at h
    cases hmap : fn.mapM (fun i =>
        rewriteStoreInst fn siId storedVal tempVal (freshVal fn) (freshId fn) i) with
    | none =>
      rw [hmap] at h
      exact StoreRes.noConfusion h
    | some pieces =>
      rw [hmap] at h
      injection h with h1 h2 h3
      exact absurd h3.symm (by simp)

/-- C5: failure of any eligibility check of the copy-replacement strategy —
`copyOptChecks` is `none` exactly when a precondition, the use classification,
the source-mutation check or the destroy-pattern check failed — makes
`tryOptimizeCopyIntoTemp` return `false` with the function's body completely
unchanged (no instruction inserted, deleted, or redirected); equivalently, any
non-rewriting outcome leaves the body unchanged, so the driver proceeds to the
next candidate over unchanged IR. -/
theorem copyOpt_failure_leaves_ir_unchanged (aa : AliasOracle) (fn : List NInst) (copyId : Nat) :
    (copyOptChecks aa fn copyId = none → tryOptimizeCopyIntoTemp aa fn copyId = (fn, false)) ∧
    ((tryOptimizeCopyIntoTemp aa fn copyId).2 = false →
      tryOptimizeCopyIntoTemp aa fn copyId = (fn, false)) := by
  constructor
  · intro h
    unfold tryOptimizeCopyIntoTemp
    rw [h]
  · exact tryOptimizeCopyIntoTemp_false_eq aa fn copyId

/-- A candidate rejected by the classifier: the `other` use of the temporary
disqualifies it. -/
def pFail : List NInst :=
  [⟨0, 0, .allocStack 50 false⟩,
   ⟨1, 0, .copyAddr 40 50 false true⟩,
   ⟨2, 0, .other [50]⟩,
   ⟨3, 0, .deallocStack 50⟩]

/-- Witness for C5: the classifier rejects `pFail`'s candidate and the body
comes back unchanged. -/
theorem copyOpt_failure_witness :
    tryOptimizeCopyIntoTemp rootOracle pFail 1 = (pFail, false) :=
  (copyOpt_failure_leaves_ir_unchanged rootOracle pFail 1).1 (by decide)

/-!
## C8 — the store-replacement preconditions
-/

/-- Whether the destination is exactly an `alloc_stack` result. -/
def destIsAllocStack (fn : List NInst) (d : Nat) : Bool :=
  match defOf fn d with
  | some ⟨_, _, .allocStack _ _⟩ => true
  | _ => false

/-- The dynamic-lifetime flag of the destination's allocation. -/
def destAllocDynamic (fn : List NInst) (d : Nat) : Bool :=
  match defOf fn d with
  | some ⟨_, _, .allocStack _ dyn⟩ => dyn
  | _ => false

/-- C8: whenever the initializing store is an assign store, or its destination
is not exactly an allocate-temporary instruction, or the temporary is declared
to have a dynamically conditional lifetime, `tryOptimizeStoreIntoTemp` rejects
the candidate before any classification of its uses (the check stage yields
`none` whatever the use pattern is) and returns with the IR unchanged and no
rewrite signalled. -/
theorem storeOpt_rejects_preconditions (aa : AliasOracle) (fn : List NInst)
    (siIdx siId blk s d : Nat) (q : StoreQual)
    (hget : fn.get? siIdx = some ⟨siId, blk, .store s d q⟩)
    (h : q = StoreQual.assign ∨ destIsAllocStack fn d = false ∨ destAllocDynamic fn d = true) :
    storeOptChecks aa fn siIdx = none ∧
    tryOptimizeStoreIntoTemp aa fn siIdx = .res fn (siIdx + 1) false := by
  have hchecks : storeOptChecks aa fn siIdx = none := by
    unfold storeOptChecks
    simp only [hget]
    rcases h with h | h | h
    · rw [if_pos h]
    · by_cases hq : q = StoreQual.assign
      · rw [if_pos hq]
      · rw [if_neg hq]
        unfold destIsAllocStack at h
        cases hdef : defOf fn d with
        | none => rfl
        | some al =>
          obtain ⟨aid, ablk, aop⟩ := al
          rw [hdef] at h
          cases aop <;> simp_all
    · by_cases hq : q = StoreQual.assign
      · rw [if_pos hq]
      · rw [if_neg hq]
        unfold destAllocDynamic at h
        cases hdef : defOf fn d with
        | none => rfl
        | some al =>
          obtain ⟨aid, ablk, aop⟩ := al
          rw [hdef] at h
          cases aop <;> simp_all
  refine ⟨hchecks, ?_⟩
  unfold tryOptimizeStoreIntoTemp
  rw [hchecks]

/-- Witness for C8: an assign store is rejected with the body unchanged. -/
theorem storeOpt_rejects_witness :
    tryOptimizeStoreIntoTemp rootOracle [⟨0, 0, .store 1 2 .assign⟩] 0 =
      .res [⟨0, 0, .store 1 2 .assign⟩] 1 false :=
  (storeOpt_rejects_preconditions rootOracle [⟨0, 0, .store 1 2 .assign⟩] 0 0 0 1 2
    StoreQual.assign rfl (Or.inl rfl)).2

/-!
## C9 (amended) â a run that signals no change is a fixed point

The counterexample `run_not_idempotent` above shows one invocation need not
reach a fixed point: a candidate rejected during the sweep can be unblocked by
a later rewrite of the same sweep (plus the cleanup of identity copies) and is
then rewritten by the next invocation.  What does hold is the following: a run
that does not signal invalidation has changed nothing, and every further run
then returns the identical result.
-/

theorem cleanupDeadCopies_nil (fn : List NInst) : cleanupDeadCopies fn [] = fn := by
  simp [cleanupDeadCopies]

theorem runLoop_changed_monotone (aa : AliasOracle) :
    ∀ (fuel : Nat) (fn : List NInst) (pos : Nat) (dc : List Nat) (fn' : List NInst) (c : Bool),
      runLoop aa fuel fn pos dc true = .done fn' c → c = true := by
  intro fuel
  induction fuel with
  | zero => intro fn pos dc fn' c h; exact RunRes.noConfusion h
  | succ fuel ih =>
    intro fn pos dc fn' c h
    unfold runLoop at h
    cases hget : fn.get? pos
    case none =>
      try simp only [hget] at h
      injection h with h1 h2
      exact h2.symm
    case some i =>
      try simp only [hget] at h
      cases hop : i.op
      case copyAddr s0 d0 tk0 ini0 =>
        try simp only [hop] at h
        cases hfind : (tryOptimizeCopyIntoTemp aa fn i.id).1.find?
            (fun j => decide (j.id = i.id))
        case none =>
          try simp only [hfind] at h
          exact RunRes.noConfusion h
        case some ci =>
          try simp only [hfind] at h
          cases hfop : ci.op
          case copyAddr s d tk ini =>
            try simp only [hfop] at h
            by_cases hid : stripAccessMarkers (tryOptimizeCopyIntoTemp aa fn i.id).1
                (tryOptimizeCopyIntoTemp aa fn i.id).1.length s = d
            · rw [if_pos hid] at h
              exact ih _ _ _ _ _ h
            · rw [if_neg hid] at h
              rw [Bool.true_or] at h
              exact ih _ _ _ _ _ h
          all_goals first
            | exact RunRes.noConfusion h
            | (simp only [hfop] at h ; exact RunRes.noConfusion h)
      case store s0 d0 q0 =>
        try simp only [hop] at h
        cases hst : tryOptimizeStoreIntoTemp aa fn pos
        case crash =>
          try simp only [hst] at h
          exact RunRes.noConfusion h
        case res fn2 next ch2 =>
          try simp only [hst] at h
          rw [Bool.true_or] at h
          exact ih _ _ _ _ _ h
      all_goals simp only [hop] at h
      all_goals exact ih _ _ _ _ _ h

theorem runLoop_unchanged (aa : AliasOracle) :
    ∀ (fuel : Nat) (fn : List NInst) (pos : Nat) (fn' : List NInst),
      runLoop aa fuel fn pos [] false = .done fn' false → fn' = fn := by
  intro fuel
  induction fuel with
  | zero => intro fn pos fn' h; exact RunRes.noConfusion h
  | succ fuel ih =>
    intro fn pos fn' h
    unfold runLoop at h
    cases hget : fn.get? pos
    case none =>
      try simp only [hget] at h
      injection h with h1 h2
      rw [← h1, cleanupDeadCopies_nil]
    case some i =>
      try simp only [hget] at h
      cases hop : i.op
      case copyAddr s0 d0 tk0 ini0 =>
        try simp only [hop] at h
        cases hfind : (tryOptimizeCopyIntoTemp aa fn i.id).1.find?
            (fun j => decide (j.id = i.id))
        case none =>
          try simp only [hfind] at h
          exact RunRes.noConfusion h
        case some ci =>
          try simp only [hfind] at h
          cases hfop : ci.op
          case copyAddr s d tk ini =>
            try simp only [hfop] at h
            by_cases hid : stripAccessMarkers (tryOptimizeCopyIntoTemp aa fn i.id).1
                (tryOptimizeCopyIntoTemp aa fn i.id).1.length s = d
            · rw [if_pos hid] at h
              have := runLoop_changed_monotone aa fuel _ _ _ _ _ h
              exact absurd this (by simp)
            · rw [if_neg hid] at h
              cases hr : (tryOptimizeCopyIntoTemp aa fn i.id).2
              · have heq := tryOptimizeCopyIntoTemp_false_eq aa fn i.id hr
                rw [heq] at h
                simp only [Bool.or_false] at h
                exact ih _ _ _ h
              · rw [hr, Bool.or_true] at h
                have := runLoop_changed_monotone aa fuel _ _ _ _ _ h
                exact absurd this (by simp)
          all_goals first
            | exact RunRes.noConfusion h
            | (simp only [hfop] at h ; exact RunRes.noConfusion h)
      case store s0 d0 q0 =>
        try simp only [hop] at h
        cases hst : tryOptimizeStoreIntoTemp aa fn pos
        case crash =>
          try simp only [hst] at h
          exact RunRes.noConfusion h
        case res fn2 next ch2 =>
          try simp only [hst] at h
          cases ch2
          · obtain ⟨h1, h2⟩ := tryOptimizeStoreIntoTemp_false_eq aa fn pos fn2 next hst
            subst h1
            simp only [Bool.or_false] at h
            exact ih _ _ _ h
          · rw [Bool.or_true] at h
            have := runLoop_changed_monotone aa fuel _ _ _ _ _ h
            exact absurd this (by simp)
      all_goals simp only [hop] at h
      all_goals exact ih _ _ _ h

/-- C9 amended: the claimed idempotence holds only conditionally.  When an
invocation of the pass does not signal invalidation, the function body is
exactly unchanged, and a second invocation returns the same body and again
signals nothing; but (per `run_not_idempotent`) an invocation that does signal
invalidation need not have reached a fixed point, and a second run may
rewrite further. -/
theorem run_noChange_is_fixedpoint (aa : AliasOracle) (fn fn' : List NInst)
    (h : run aa fn = .done fn' false) :
    fn' = fn ∧ run aa fn' = .done fn' false := by
  have h1 : fn' = fn := runLoop_unchanged aa _ fn 0 fn' h
  subst h1
  exact ⟨rfl, h⟩

/-- Witness for the amended C9 at a one-instruction function the pass leaves
alone. -/
theorem run_noChange_witness :
    ([⟨0, 0, .other []⟩] : List NInst) = [⟨0, 0, .other []⟩] ∧
      run rootOracle [⟨0, 0, .other []⟩] = .done [⟨0, 0, .other []⟩] false :=
  run_noChange_is_fixedpoint rootOracle [⟨0, 0, .other []⟩] [⟨0, 0, .other []⟩] (by decide)

/-!
## C10 — read-only scoped accesses are accepted without touching the read-set
-/

/-- The classifier's `BeginAccessInst` case: a read-only access begin is
accepted and the read-set comes back exactly as it went in — no insertion and
no recursion into the access scope's uses. -/
theorem collectLoads_beginAccess_eq (aa : AliasOracle) (fn : List NInst)
    (fuel opIdx uid blk r a addrVal : Nat) (srcAddr : Option Nat) (S : Finset Nat) :
    collectLoads aa fn (fuel + 1) opIdx ⟨uid, blk, .beginAccess r a .read⟩ addrVal blk srcAddr S
      = some S := by
  unfold collectLoads
  simp

/-- C10: a `begin_access [read]` use of the candidate is accepted by the
classifier with the read-set unchanged — the begin-access is not added and its
own uses are never visited — and consequently the top-level use scan carries
the accumulated read-set past such a use untouched, so nothing from inside a
read-access scope ever enters the read-set that the source-mutation checker
counts down. -/
theorem beginAccessRead_no_readset_entry (aa : AliasOracle) (fn : List NInst)
    (fuel opIdx uid blk r a addrVal : Nat) (srcAddr : Option Nat) (S : Finset Nat) :
    (collectLoads aa fn (fuel + 1) opIdx ⟨uid, blk, .beginAccess r a .read⟩ addrVal blk srcAddr S
        = some S)
    ∧ (∀ (initId tempVal : Nat) (rest : List (NInst × Nat)),
        classifyGo aa fn initId tempVal blk srcAddr
            ((⟨uid, blk, .beginAccess r a .read⟩, opIdx) :: rest) S
          = classifyGo aa fn initId tempVal blk srcAddr rest S) := by
  refine ⟨collectLoads_beginAccess_eq aa fn fuel opIdx uid blk r a addrVal srcAddr S, ?_⟩
  intro initId tempVal rest
  by_cases hid : uid = initId
  · conv_lhs => rw [classifyGo]
    rw [if_pos (by simpa using hid)]
  · conv_lhs => rw [classifyGo]
    rw [if_neg (by simpa using hid), if_neg (by simp), if_neg (by simp),
      collectLoads_beginAccess_eq]

/-!
## C7 — consuming loads: top-level versus projection level
-/

/-- The classifier's `LoadInst` case: a `load [take]` is rejected, any other
load is a terminal read added to the read-set. -/
theorem collectLoads_load_eq (aa : AliasOracle) (fn : List NInst)
    (fuel opIdx uid blk r a addrVal : Nat) (q : LoadQual) (srcAddr : Option Nat) (S : Finset Nat) :
    collectLoads aa fn (fuel + 1) opIdx ⟨uid, blk, .load r a q⟩ addrVal blk srcAddr S
      = if q = .take then none else some (insert uid S) := by
  unfold collectLoads
  simp

/-- C7: a `load [take]` directly on the top-level temporary is skipped by the
callers' use scans (`classifyGo` passes over it without consulting the
classifier, treating it as a valid lifetime terminator), whereas any consuming
load that does reach `collectLoads` — which only happens for projections —
fails classification; a non-consuming load reaching the classifier is accepted
as a terminal read and added to the read-set. -/
theorem loadTake_classification (aa : AliasOracle) (fn : List NInst) :
    (∀ (initId tempVal tempBlk uid blk r opIdx : Nat) (srcAddr : Option Nat)
        (rest : List (NInst × Nat)) (S : Finset Nat),
      classifyGo aa fn initId tempVal tempBlk srcAddr
          ((⟨uid, blk, .load r tempVal .take⟩, opIdx) :: rest) S
        = classifyGo aa fn initId tempVal tempBlk srcAddr rest S)
    ∧ (∀ (fuel opIdx uid blk r a addrVal : Nat) (srcAddr : Option Nat) (S : Finset Nat),
      collectLoads aa fn (fuel + 1) opIdx ⟨uid, blk, .load r a .take⟩ addrVal blk srcAddr S
        = none)
    ∧ (∀ (fuel opIdx uid blk r a addrVal : Nat) (q : LoadQual) (srcAddr : Option Nat)
        (S : Finset Nat), q ≠ .take →
      collectLoads aa fn (fuel + 1) opIdx ⟨uid, blk, .load r a q⟩ addrVal blk srcAddr S
        = some (insert uid S)) := by
  refine ⟨?_, ?_, ?_⟩
  · intro initId tempVal tempBlk uid blk r opIdx srcAddr rest S
    by_cases hid : uid = initId
    · conv_lhs => rw [classifyGo]
      rw [if_pos (by simpa using hid)]
    · conv_lhs => rw [classifyGo]
      rw [if_neg (by simpa using hid), if_neg (by simp), if_pos (by simp)]
  · intro fuel opIdx uid blk r a addrVal srcAddr S
    rw [collectLoads_load_eq]
    simp
  · intro fuel opIdx uid blk r a addrVal q srcAddr S hq
    rw [collectLoads_load_eq]
    simp [hq]

/-- Witness for C7's conditional part: a `load [copy]` is accepted and
registered. -/
theorem loadTake_classification_witness :
    collectLoads rootOracle [] 1 0 ⟨4, 0, .load 9 8 .copy⟩ 8 0 none ∅ = some (insert 4 ∅) :=
  (loadTake_classification rootOracle []).2.2 0 0 4 0 9 8 8 LoadQual.copy none ∅ (by decide)

/-!
## C6 — the call/invoke acceptance condition
-/

/-- C6: a call/invoke use of the candidate (the operand at `opIdx`, whose
convention is `conv`) is accepted as a read — registering the call in the
read-set — if and only if the convention is guaranteed, it is not the case
that the convention is indirect while no source address is known, and, when a
source address is known, every argument of the call passed with an inout
convention is proven no-alias with the source by the alias oracle. -/
theorem collectLoads_apply_spec (aa : AliasOracle) (fn : List NInst)
    (fuel opIdx uid blk addrVal : Nat) (srcAddr : Option Nat) (S : Finset Nat)
    (args : List (Nat × ArgConv)) (av : Nat) (conv : ArgConv)
    (hget : args.get? opIdx = some (av, conv)) :
    collectLoads aa fn (fuel + 1) opIdx ⟨uid, blk, .apply args⟩ addrVal blk srcAddr S
        = some (insert uid S)
      ↔ (conv.isGuaranteed = true
         ∧ ¬(srcAddr = none ∧ conv.isIndirect = true)
         ∧ ∀ s, srcAddr = some s → ∀ p ∈ args, p.2.isInout = true → aa.isNoAlias p.1 s = true) := by
  unfold collectLoads
  rw [if_neg (by simp)]
  simp only [hget]
  cases hg : conv.isGuaranteed
  · simp [hg]
  · simp only [hg, Bool.not_true, Bool.false_eq_true, if_false]
    cases srcAddr with
    | none =>
      simp only [Option.isNone_none, Bool.true_and]
      cases hi : conv.isIndirect
      · simp [hi]
      · simp [hi]
    | some s =>
      simp only [Option.isNone_some, Bool.false_and, Bool.false_eq_true, if_false]
      by_cases hall : args.all (fun a => !a.2.isInout || aa.isNoAlias a.1 s) = true
      · rw [if_pos hall]
        simp only [List.all_eq_true] at hall
        constructor
        · intro _
          refine ⟨by simp [hg], by simp, ?_⟩
          intro s' hs' p hp hio
          cases hs'
          have := hall p hp
          rw [hio] at this
          simpa using this
        · intro _; rfl
      · rw [if_neg hall]
        constructor
        · intro hfalse; exact Option.noConfusion hfalse
        · rintro ⟨_, _, h3⟩
          exfalso
          apply hall
          rw [List.all_eq_true]
          intro p hp
          cases hio : p.2.isInout
          · simp
          · simp only [Bool.not_true, Bool.false_or]
            exact h3 s rfl p hp hio

/-- Witness for C6 at a one-argument call passing the temporary
`@in_guaranteed` with a known, distinct source address. -/
theorem collectLoads_apply_witness :
    collectLoads rootOracle [] 1 0 ⟨3, 0, .apply [(7, .indirectInGuaranteed)]⟩ 8 0 (some 9) ∅
      = some (insert 3 ∅) := by
  apply (collectLoads_apply_spec rootOracle [] 0 0 3 0 8 (some 9) ∅
    [(7, .indirectInGuaranteed)] 7 ArgConv.indirectInGuaranteed rfl).mpr
  refine ⟨rfl, by simp, ?_⟩
  intro s hs p hp hio
  cases hs
  rw [List.mem_singleton] at hp
  subst hp
  exact absurd hio (by decide)

/-!
## C4 — the consuming-load rewrite

On `pTake` the computed frontier is `[4]` (the instruction `⟨4, other [60]⟩`),
whose directly preceding instruction is the `copy_addr [take]` with id 3 — not
the original consuming load (id 2), so a compensating release is due.  The
claim would place that release immediately before the frontier point, i.e.
between ids 3 and 4; the source builds at `prevInst`
(`SILBuilderWithScope builder(prevInst)`), inserting it immediately before the
preceding instruction, i.e. before id 3.
-/

/-- C4's placement is refuted: the rewrite of `pTake` synthesizes the
duplicating read (`⟨6, load 61 40 copy⟩`) at the initializer's position and
routes the consuming load's use (`other [60]` becomes `other [61]`) as
claimed, but the compensating `destroy_value` (id 10) lands immediately before
the frontier point's preceding instruction (id 3), not immediately before the
frontier point (id 4) as the claim states. -/
theorem takeRewrite_destroy_before_preceding_inst :
    tryOptimizeCopyIntoTemp rootOracle pTake 1 =
      ([⟨6, 0, .load 61 40 .copy⟩,
        ⟨1, 0, .copyAddr 40 40 false true⟩,
        ⟨10, 0, .destroyValue 61⟩,
        ⟨3, 0, .copyAddr 40 41 false true⟩,
        ⟨4, 0, .other [61]⟩], true) ∧
    tryOptimizeCopyIntoTemp rootOracle pTake 1 ≠
      ([⟨6, 0, .load 61 40 .copy⟩,
        ⟨1, 0, .copyAddr 40 40 false true⟩,
        ⟨3, 0, .copyAddr 40 41 false true⟩,
        ⟨10, 0, .destroyValue 61⟩,
        ⟨4, 0, .other [61]⟩], true) := by
  refine ⟨by decide, by decide⟩

/-- The insertion points of the compensating releases: exactly the index
directly before each frontier point whose preceding instruction exists and is
not the original consuming load. -/
theorem takeDestroyPositions_iff (fn : List NInst) (liId : Nat) (frontier : List Nat) (p : Nat) :
    p ∈ takeDestroyPositions fn liId frontier ↔
      ∃ f ∈ frontier, p = f - 1 ∧
        ∃ prev : NInst, fn.get? (f - 1) = some prev ∧ prev.id ≠ liId := by
  unfold takeDestroyPositions
  rw [List.mem_filterMap]
  constructor
  · rintro ⟨f, hf, hsome⟩
    refine ⟨f, hf, ?_⟩
    cases hget : fn.get? (f - 1) with
    | none => rw [hget] at hsome; exact Option.noConfusion hsome
    | some prev =>
      rw [hget] at hsome
      by_cases hid : prev.id = liId
      · simp [hid] at hsome
      · simp [hid] at hsome
        exact ⟨hsome.symm, prev, rfl, hid⟩
  · rintro ⟨f, hf, hp, prev, hget, hid⟩
    refine ⟨f, hf, ?_⟩
    rw [List.get?_eq_getElem?] at hget
    simp [hget, hid, hp]

/-- C4 amended: for every consuming load of the temporary, if the initializing
copy consumed its source the load is redirected to read the (raw) source
directly; otherwise the load itself is deleted — a duplicating read is
synthesized at the initializer's position and all its uses rerouted to it, per
`newLoadEmits`/`takeSubst` in `rewriteCopy` — and a compensating release of
the new value is inserted immediately before the instruction preceding every
lifetime-frontier point, except the point whose preceding instruction was the
original consuming load itself. -/
theorem takeRewrite_amended (copyId rawSrc copySrc tempVal uid blk r : Nat) :
    (rewriteInstForTemp copyId rawSrc copySrc tempVal true ⟨uid, blk, .load r tempVal .take⟩
        = [⟨uid, blk, .load r rawSrc .take⟩]) ∧
    (rewriteInstForTemp copyId rawSrc copySrc tempVal false ⟨uid, blk, .load r tempVal .take⟩
        = []) ∧
    (∀ (fn : List NInst) (liId : Nat) (frontier : List Nat) (p : Nat),
      p ∈ takeDestroyPositions fn liId frontier ↔
        ∃ f ∈ frontier, p = f - 1 ∧
          ∃ prev : NInst, fn.get? (f - 1) = some prev ∧ prev.id ≠ liId) := by
  refine ⟨?_, ?_, fun fn liId frontier p => takeDestroyPositions_iff fn liId frontier p⟩
  · unfold rewriteInstForTemp
    simp
  · unfold rewriteInstForTemp
    simp
